import Mathlib

/-!
Shallow embedding of the verification core of the PHY 132 Kirchhoff checker
(`app.py`): tolerance classification of submitted currents, the closed-form
Kirchhoff equations and the 3×3 current solve, equation canonicalization and
comparison, and the linear-independence check.

Machine floats are modelled by exact arithmetic: the solver and classifier are
embedded over ℚ (all their operations are field/order operations), while the
canonicalization pipeline, which divides by a Euclidean norm, is embedded
over ℝ.
-/

namespace KirchhoffChecker

/-! ### Configuration constants (app.py lines 14–17) -/

/-- `TOL_I_MA = 1.0`: within ±1 mA is considered correct. -/
def TOL_I_MA : ℚ := 1

/-- `ALMOST_MULT = 2.0`: "Almost" = within 2× tolerance. -/
def ALMOST_MULT : ℚ := 2

/-! ### Current classification (app.py lines 32–43, 237–261) -/

/-- The three-tier verdict assigned to a value or to a whole submission. -/
inductive Verdict where
  | Correct
  | Almost
  | Incorrect
  deriving DecidableEq, Repr

/-- `is_within(student_val, target_val, tol_abs)` (app.py line 39). -/
def is_within (student_val target_val tol_abs : ℚ) : Bool :=
  |student_val - target_val| ≤ tol_abs

/-- `almost_within(student_val, target_val, tol_abs)` (app.py line 42). -/
def almost_within (student_val target_val tol_abs : ℚ) : Bool :=
  (!is_within student_val target_val tol_abs) &&
    is_within student_val target_val (tol_abs * ALMOST_MULT)

/-- `verdict_icon(ok, almost)` (app.py line 32), with the three icons
rendered as the `Verdict` enumeration (✅ = Correct, ⚠️ = Almost,
❌ = Incorrect). -/
def verdict_icon (ok : Bool) (almost : Bool) : Verdict :=
  if ok then .Correct else if almost then .Almost else .Incorrect

/-- The per-value verdict displayed for one current (app.py lines 237–251):
the icon computed from `is_within` and `almost_within`. -/
def value_verdict (student target tol : ℚ) : Verdict :=
  verdict_icon (is_within student target tol) (almost_within student target tol)

/-- The aggregate verdict (`result_label`, app.py lines 245–261): `Correct`
when `all_correct`, else `Almost` when `any_almost`, else `Incorrect`. -/
def result_label (i1 i2 i3 e1 e2 e3 tol : ℚ) : Verdict :=
  let all_correct := is_within i1 e1 tol && is_within i2 e2 tol && is_within i3 e3 tol
  let any_almost := almost_within i1 e1 tol || almost_within i2 e2 tol ||
    almost_within i3 e3 tol
  if all_correct then .Correct else if any_almost then .Almost else .Incorrect

/-! ### Kirchhoff system (app.py lines 100–121) -/

/-- An equation `A·I1 + B·I2 + C·I3 + D = 0` as the coefficient tuple
`(A, B, C, D)`. -/
abbrev Equation := ℚ × ℚ × ℚ × ℚ

/-- `compute_kirchhoff_coefficients(V1, V2, R1, R2, R3)` (app.py lines
100–110): the four closed-form equations junction, left loop, right loop,
big (outer) loop. -/
def compute_kirchhoff_coefficients (V1 V2 R1 R2 R3 : ℚ) : List Equation :=
  [(1, -1, -1, 0),
   (-R1, 0, -R3, V1),
   (0, R2, -R3, -V2),
   (-R1, -R2, 0, V1 - V2)]

/-- A 3-vector of rationals. -/
abbrev Vec3 := ℚ × ℚ × ℚ

/-- A 3×3 matrix as a triple of rows. -/
abbrev Mat3 := Vec3 × Vec3 × Vec3

/-- Determinant of a 3×3 matrix (cofactor expansion along the first row). -/
def det3 : Mat3 → ℚ
  | ((a, b, c), (d, e, f), (g, h, i)) =>
    a * (e * i - f * h) - b * (d * i - f * g) + c * (d * h - e * g)

/-- Models `np.linalg.solve` for a 3×3 system in exact arithmetic: when the
matrix is nonsingular it returns the unique solution (written via Cramer's
rule, which agrees exactly with the LU solve over a field); when the matrix
is singular it returns `none` (numpy raises `LinAlgError`). -/
def linsolve3 : Mat3 → Vec3 → Option Vec3
  | ((a, b, c), (d, e, f), (g, h, i)), (p, q, r) =>
    if det3 ((a, b, c), (d, e, f), (g, h, i)) = 0 then none
    else some
      (det3 ((p, b, c), (q, e, f), (r, h, i)) / det3 ((a, b, c), (d, e, f), (g, h, i)),
       det3 ((a, p, c), (d, q, f), (g, r, i)) / det3 ((a, b, c), (d, e, f), (g, h, i)),
       det3 ((a, b, p), (d, e, q), (g, h, r)) / det3 ((a, b, c), (d, e, f), (g, h, i)))

/-- First three coefficients `(A, B, C)` of an equation (`eq[0:3]`). -/
def coeffPart (e : Equation) : Vec3 := (e.1, e.2.1, e.2.2.1)

/-- Constant term `D` of an equation (`eq[3]`). -/
def constPart (e : Equation) : ℚ := e.2.2.2

/-- The 3×3 coefficient matrix assembled by `solve_currents_from_params`
(app.py line 118) from the junction, left-loop and right-loop equations. -/
def kirchhoffMatrix (V1 V2 R1 R2 R3 : ℚ) : Mat3 :=
  match compute_kirchhoff_coefficients V1 V2 R1 R2 R3 with
  | q1 :: q2 :: q3 :: _ => (coeffPart q1, coeffPart q2, coeffPart q3)
  | _ => ((0, 0, 0), (0, 0, 0), (0, 0, 0))

/-- `solve_currents_from_params(V1, V2, R1, R2, R3)` (app.py lines 112–121):
build the 3×3 system from equations 1–3 (constants moved to the right-hand
side with a sign flip) and solve it. -/
def solve_currents_from_params (V1 V2 R1 R2 R3 : ℚ) : Option Vec3 :=
  match compute_kirchhoff_coefficients V1 V2 R1 R2 R3 with
  | q1 :: q2 :: q3 :: _ =>
    linsolve3 (coeffPart q1, coeffPart q2, coeffPart q3)
      (-constPart q1, -constPart q2, -constPart q3)
  | _ => none

/-- Value of the left-hand side `A·I1 + B·I2 + C·I3 + D` of an equation at a
current vector. -/
def evalEquation (e : Equation) (I : Vec3) : ℚ :=
  e.1 * I.1 + e.2.1 * I.2.1 + e.2.2.1 * I.2.2 + e.2.2.2

/-! ### Equation canonicalization and comparison (app.py lines 16–17, 53–97)

Student and expected equations are 4-vectors of machine floats; the
canonicalization divides by a Euclidean norm, so this part is embedded
over ℝ. -/

/-- An equation's coefficient vector `(A, B, C, D)` over ℝ. -/
abbrev EqVec := ℝ × ℝ × ℝ × ℝ

/-- Componentwise negation of a 4-vector (`v = -v`, app.py line 71). -/
def neg4 (v : EqVec) : EqVec := (-v.1, -v.2.1, -v.2.2.1, -v.2.2.2)

/-- Componentwise scaling of a 4-vector by a scalar. -/
def smul4 (k : ℝ) (v : EqVec) : EqVec :=
  (k * v.1, k * v.2.1, k * v.2.2.1, k * v.2.2.2)

/-- Componentwise division of a 4-vector by a scalar (`v / norm`). -/
noncomputable def div4 (v : EqVec) (n : ℝ) : EqVec :=
  (v.1 / n, v.2.1 / n, v.2.2.1 / n, v.2.2.2 / n)

/-- Sum of squares of the components. -/
def normSq (v : EqVec) : ℝ :=
  v.1 ^ 2 + v.2.1 ^ 2 + v.2.2.1 ^ 2 + v.2.2.2 ^ 2

/-- Euclidean (L2) norm, `np.linalg.norm` (app.py line 64). -/
noncomputable def l2norm (v : EqVec) : ℝ := Real.sqrt (normSq v)

section CanonicalDefs

open Classical

/-- The sign-fixing loop of `_canonicalize` (app.py lines 68–72): scan the
components in order; at the first nonzero one, negate the whole vector if
that component is negative, then stop. -/
noncomputable def signFix (v : EqVec) : EqVec :=
  if v.1 ≠ 0 then (if v.1 < 0 then neg4 v else v)
  else if v.2.1 ≠ 0 then (if v.2.1 < 0 then neg4 v else v)
  else if v.2.2.1 ≠ 0 then (if v.2.2.1 < 0 then neg4 v else v)
  else if v.2.2.2 ≠ 0 then (if v.2.2.2 < 0 then neg4 v else v)
  else v

/-- `_canonicalize(eq_vec)` (app.py lines 53–73): return an all-zero vector
unchanged; otherwise divide by the L2 norm when it is positive, then flip
the sign so the first nonzero coefficient is nonnegative. -/
noncomputable def canonicalize (v : EqVec) : EqVec :=
  if ¬(v.1 ≠ 0 ∨ v.2.1 ≠ 0 ∨ v.2.2.1 ≠ 0 ∨ v.2.2.2 ≠ 0) then v
  else signFix (if l2norm v > 0 then div4 v (l2norm v) else v)

end CanonicalDefs

/-- `ATOL_EQ_COEFF = 0.1` (app.py line 16). -/
noncomputable def ATOL_EQ_COEFF : ℝ := 0.1

/-- `RTOL_EQ_COEFF = 1e-3` (app.py line 17). -/
noncomputable def RTOL_EQ_COEFF : ℝ := 1e-3

/-- One-component closeness test of `np.allclose`:
`|a − b| ≤ atol + rtol·|b|`. -/
def close (a b : ℝ) : Prop := |a - b| ≤ ATOL_EQ_COEFF + RTOL_EQ_COEFF * |b|

/-- `np.allclose(s, e, rtol=RTOL_EQ_COEFF, atol=ATOL_EQ_COEFF)` on
4-vectors: componentwise closeness of every coefficient. -/
def allclose (u v : EqVec) : Prop :=
  close u.1 v.1 ∧ close u.2.1 v.2.1 ∧ close u.2.2.1 v.2.2.1 ∧ close u.2.2.2 v.2.2.2

/-- `compare_equations(student_eqs, expected_eqs)` (app.py lines 79–91):
canonicalize all equations, then for each student equation record whether it
is close to any canonicalized expected equation. -/
def compare_equations (student_eqs expected_eqs : List EqVec) : List Prop :=
  student_eqs.map fun s =>
    ∃ e ∈ expected_eqs, allclose (canonicalize s) (canonicalize e)

/-- The `(A, B, C)` coefficient row of an equation (`eq[:-1]`,
app.py line 95). -/
def coeffRow (e : EqVec) : Fin 3 → ℝ := ![e.1, e.2.1, e.2.2.1]

/-- The coefficient matrix of `check_linear_independence` (app.py line 95):
one row per equation, constant terms excluded. -/
def coeffMatrix (eqs : List EqVec) : Matrix (Fin eqs.length) (Fin 3) ℝ :=
  Matrix.of fun i j => coeffRow (eqs.get i) j

/-- `check_linear_independence(equations)` (app.py lines 93–97): the rank of
the coefficient matrix (`np.linalg.matrix_rank`, modelled as the exact rank
over ℝ) equals the number of equations. -/
def check_linear_independence (eqs : List EqVec) : Prop :=
  (coeffMatrix eqs).rank = eqs.length

/-- The linear combination `a·e1 + b·e2` of two equations. -/
def lincomb (a b : ℝ) (e1 e2 : EqVec) : EqVec :=
  (a * e1.1 + b * e2.1, a * e1.2.1 + b * e2.2.1,
   a * e1.2.2.1 + b * e2.2.2.1, a * e1.2.2.2 + b * e2.2.2.2)

/-! ### Helper lemmas -/

lemma almost_within_of_within {s e t : ℚ} (h : is_within s e t = true) :
    almost_within s e t = false := by
  simp [almost_within, h]

lemma value_verdict_correct_iff (s e t : ℚ) :
    value_verdict s e t = .Correct ↔ is_within s e t = true := by
  cases hw : is_within s e t
  · cases ha : almost_within s e t <;>
      simp [value_verdict, verdict_icon, hw, ha]
  · simp [value_verdict, verdict_icon, hw]

lemma value_verdict_almost_iff (s e t : ℚ) :
    value_verdict s e t = .Almost ↔ almost_within s e t = true := by
  cases hw : is_within s e t
  · cases ha : almost_within s e t <;>
      simp [value_verdict, verdict_icon, hw, ha]
  · simp [value_verdict, verdict_icon, hw, almost_within_of_within hw]

lemma value_verdict_eq (s e t : ℚ) :
    value_verdict s e t =
      if |s - e| ≤ t then .Correct
      else if |s - e| ≤ t * 2 then .Almost
      else .Incorrect := by
  by_cases h1 : |s - e| ≤ t <;> by_cases h2 : |s - e| ≤ t * 2 <;>
    simp [value_verdict, verdict_icon, is_within, almost_within, ALMOST_MULT, h1, h2]

/-! ### Claim theorems -/

/-- C1: for every circuit parameters `(V1, V2, R1, R2, R3)`,
`compute_kirchhoff_coefficients` returns exactly the four equations, in
order: junction `(1, −1, −1, 0)`, left loop `(−R1, 0, −R3, V1)`, right loop
`(0, R2, −R3, −V2)`, and outer loop `(−R1, −R2, 0, V1−V2)`, each tuple
`(A, B, C, D)` standing for `A·I1 + B·I2 + C·I3 + D = 0`. -/
theorem compute_kirchhoff_coefficients_spec (V1 V2 R1 R2 R3 : ℚ) :
    compute_kirchhoff_coefficients V1 V2 R1 R2 R3 =
      [(1, -1, -1, 0), (-R1, 0, -R3, V1), (0, R2, -R3, -V2),
       (-R1, -R2, 0, V1 - V2)] := rfl

/-- C3: a value is `Correct` iff its deviation is at most the tolerance,
`Almost` iff the deviation is strictly above the tolerance but at most twice
it, and `Incorrect` otherwise; with tolerance 1.0 mA, a deviation of exactly
1.0 mA is Correct, deviations of 1.000001 mA and 2.0 mA are Almost, and a
deviation of 2.000001 mA is Incorrect. -/
theorem value_verdict_spec (s e t : ℚ) :
    (value_verdict s e t = .Correct ↔ |s - e| ≤ t) ∧
    (value_verdict s e t = .Almost ↔ t < |s - e| ∧ |s - e| ≤ 2 * t) ∧
    (value_verdict s e t = .Incorrect ↔ 2 * t < |s - e|) ∧
    value_verdict (e + 1) e 1 = .Correct ∧
    value_verdict (e + 1.000001) e 1 = .Almost ∧
    value_verdict (e + 2) e 1 = .Almost ∧
    value_verdict (e + 2.000001) e 1 = .Incorrect := by
  have key : ∀ d : ℚ, 0 ≤ d → value_verdict (e + d) e 1 =
      if d ≤ 1 then Verdict.Correct
      else if d ≤ 2 then Verdict.Almost
      else Verdict.Incorrect := by
    intro d hd
    rw [value_verdict_eq, show e + d - e = d by ring, abs_of_nonneg hd]
    norm_num
  refine ⟨?_, ?_, ?_, ?_, ?_, ?_, ?_⟩
  · rw [value_verdict_eq]
    split_ifs with h1 h2 <;> simp [h1]
  · rw [value_verdict_eq]
    split_ifs with h1 h2
    · exact iff_of_false (by simp) (by intro hx; linarith [hx.1])
    · exact iff_of_true rfl ⟨not_le.mp h1, by linarith⟩
    · exact iff_of_false (by simp) (by intro hx; exact h2 (by linarith [hx.2]))
  · rw [value_verdict_eq]
    split_ifs with h1 h2
    · exact iff_of_false (by simp) (by intro hx; linarith [abs_nonneg (s - e)])
    · exact iff_of_false (by simp) (by intro hx; linarith)
    · exact iff_of_true rfl (by linarith [not_le.mp h2])
  · rw [key 1 (by norm_num)]; norm_num
  · rw [key 1.000001 (by norm_num)]; norm_num
  · rw [key 2 (by norm_num)]; norm_num
  · rw [key 2.000001 (by norm_num)]; norm_num

/-- C4: the aggregate verdict is `Correct` iff all three per-value verdicts
are `Correct`; otherwise it is `Almost` iff at least one per-value verdict
is `Almost`; otherwise it is `Incorrect`. -/
theorem result_label_spec (i1 i2 i3 e1 e2 e3 t : ℚ) :
    (result_label i1 i2 i3 e1 e2 e3 t = .Correct ↔
      (value_verdict i1 e1 t = .Correct ∧ value_verdict i2 e2 t = .Correct ∧
       value_verdict i3 e3 t = .Correct)) ∧
    (result_label i1 i2 i3 e1 e2 e3 t = .Almost ↔
      (¬(value_verdict i1 e1 t = .Correct ∧ value_verdict i2 e2 t = .Correct ∧
         value_verdict i3 e3 t = .Correct) ∧
       (value_verdict i1 e1 t = .Almost ∨ value_verdict i2 e2 t = .Almost ∨
        value_verdict i3 e3 t = .Almost))) ∧
    (result_label i1 i2 i3 e1 e2 e3 t = .Incorrect ↔
      (¬(value_verdict i1 e1 t = .Correct ∧ value_verdict i2 e2 t = .Correct ∧
         value_verdict i3 e3 t = .Correct) ∧
       ¬(value_verdict i1 e1 t = .Almost ∨ value_verdict i2 e2 t = .Almost ∨
         value_verdict i3 e3 t = .Almost))) := by
  simp only [value_verdict_correct_iff, value_verdict_almost_iff]
  cases hw1 : is_within i1 e1 t <;> cases hw2 : is_within i2 e2 t <;>
    cases hw3 : is_within i3 e3 t <;>
    cases ha1 : almost_within i1 e1 t <;> cases ha2 : almost_within i2 e2 t <;>
    cases ha3 : almost_within i3 e3 t <;>
    simp_all [result_label, almost_within]

lemma kirchhoffMatrix_eq (V1 V2 R1 R2 R3 : ℚ) :
    kirchhoffMatrix V1 V2 R1 R2 R3 =
      ((1, -1, -1), (-R1, 0, -R3), (0, R2, -R3)) := rfl

lemma solve_currents_eq (V1 V2 R1 R2 R3 : ℚ) :
    solve_currents_from_params V1 V2 R1 R2 R3 =
      linsolve3 ((1, -1, -1), (-R1, 0, -R3), (0, R2, -R3))
        (-0, -V1, -(-V2)) := rfl

lemma det3_kirchhoff (V1 V2 R1 R2 R3 : ℚ) :
    det3 (kirchhoffMatrix V1 V2 R1 R2 R3) = R1 * R2 + R1 * R3 + R2 * R3 := by
  rw [kirchhoffMatrix_eq]
  simp only [det3]
  ring

lemma linsolve3_spec (a b c d e f g h i p q r : ℚ)
    (hD : det3 ((a, b, c), (d, e, f), (g, h, i)) ≠ 0) :
    ∃ x : Vec3, linsolve3 ((a, b, c), (d, e, f), (g, h, i)) (p, q, r) = some x ∧
      a * x.1 + b * x.2.1 + c * x.2.2 = p ∧
      d * x.1 + e * x.2.1 + f * x.2.2 = q ∧
      g * x.1 + h * x.2.1 + i * x.2.2 = r := by
  have hD' : a * (e * i - f * h) - b * (d * i - f * g) + c * (d * h - e * g) ≠ 0 := by
    simpa [det3] using hD
  refine ⟨(det3 ((p, b, c), (q, e, f), (r, h, i)) / det3 ((a, b, c), (d, e, f), (g, h, i)),
          det3 ((a, p, c), (d, q, f), (g, r, i)) / det3 ((a, b, c), (d, e, f), (g, h, i)),
          det3 ((a, b, p), (d, e, q), (g, h, r)) / det3 ((a, b, c), (d, e, f), (g, h, i))),
         ?_, ?_, ?_, ?_⟩
  · simp only [linsolve3, if_neg hD]
  · simp only [det3]
    field_simp
    ring
  · simp only [det3]
    field_simp
    ring
  · simp only [det3]
    field_simp
    ring

/-- C2: for parameters whose 3×3 coefficient matrix (junction, left-loop and
right-loop rows) is nonsingular, the current vector returned by
`solve_currents_from_params` satisfies `A·I1 + B·I2 + C·I3 + D = 0` for each
of the first three canonical Kirchhoff equations. -/
theorem solve_currents_satisfy (V1 V2 R1 R2 R3 : ℚ)
    (hns : det3 (kirchhoffMatrix V1 V2 R1 R2 R3) ≠ 0) :
    ∃ I : Vec3, solve_currents_from_params V1 V2 R1 R2 R3 = some I ∧
      ∀ e ∈ (compute_kirchhoff_coefficients V1 V2 R1 R2 R3).take 3,
        evalEquation e I = 0 := by
  rw [kirchhoffMatrix_eq] at hns
  obtain ⟨x, hx, hs1, hs2, hs3⟩ :=
    linsolve3_spec 1 (-1) (-1) (-R1) 0 (-R3) 0 R2 (-R3) (-0) (-V1) (-(-V2)) hns
  refine ⟨x, by rw [solve_currents_eq, hx], ?_⟩
  intro eq heq
  simp only [compute_kirchhoff_coefficients, List.take, List.mem_cons,
    List.not_mem_nil, or_false] at heq
  rcases heq with h | h | h <;> subst h <;> simp only [evalEquation] <;> linarith

/-- C10: for strictly positive resistances the coefficient matrix assembled
by the solver has determinant `R1·R2 + R1·R3 + R2·R3 > 0`, hence it is
nonsingular and `solve_currents_from_params` always returns a solution. -/
theorem kirchhoff_matrix_nonsingular (V1 V2 R1 R2 R3 : ℚ)
    (h1 : 0 < R1) (h2 : 0 < R2) (h3 : 0 < R3) :
    det3 (kirchhoffMatrix V1 V2 R1 R2 R3) = R1 * R2 + R1 * R3 + R2 * R3 ∧
    0 < det3 (kirchhoffMatrix V1 V2 R1 R2 R3) ∧
    (solve_currents_from_params V1 V2 R1 R2 R3).isSome = true := by
  have hdet := det3_kirchhoff V1 V2 R1 R2 R3
  have hpos : 0 < det3 (kirchhoffMatrix V1 V2 R1 R2 R3) := by
    rw [hdet]
    have := mul_pos h1 h2
    have := mul_pos h1 h3
    have := mul_pos h2 h3
    linarith
  refine ⟨hdet, hpos, ?_⟩
  obtain ⟨x, hx, -⟩ := solve_currents_satisfy V1 V2 R1 R2 R3 (ne_of_gt hpos)
  rw [hx]
  rfl

/-- Witness for C2 at the spec's concrete scenario
`V1 = 10, V2 = 5, R1 = R2 = R3 = 100`. -/
theorem solve_currents_satisfy_witness :
    det3 (kirchhoffMatrix 10 5 100 100 100) ≠ 0 ∧
    ∃ I : Vec3, solve_currents_from_params 10 5 100 100 100 = some I ∧
      ∀ e ∈ (compute_kirchhoff_coefficients 10 5 100 100 100).take 3,
        evalEquation e I = 0 :=
  ⟨by norm_num [det3_kirchhoff], solve_currents_satisfy 10 5 100 100 100
    (by norm_num [det3_kirchhoff])⟩

/-- Witness for C10 at the spec's concrete scenario
`V1 = 10, V2 = 5, R1 = R2 = R3 = 100`. -/
theorem kirchhoff_matrix_nonsingular_witness :
    (0 < (100 : ℚ)) ∧
    (det3 (kirchhoffMatrix 10 5 100 100 100) = 100 * 100 + 100 * 100 + 100 * 100 ∧
     0 < det3 (kirchhoffMatrix 10 5 100 100 100) ∧
     (solve_currents_from_params 10 5 100 100 100).isSome = true) :=
  ⟨by decide,
   kirchhoff_matrix_nonsingular 10 5 100 100 100 (by decide) (by decide) (by decide)⟩

lemma neg4_neg4 (v : EqVec) : neg4 (neg4 v) = v := by
  simp [neg4]

lemma signFix_neg4 (v : EqVec) : signFix (neg4 v) = signFix v := by
  obtain ⟨a, b, c, d⟩ := v
  rcases lt_trichotomy a 0 with ha | ha | ha
  · have h2 : ¬(-a < 0) := by simp; linarith
    simp [signFix, neg4, ha, ha.ne, h2]
  · subst ha
    rcases lt_trichotomy b 0 with hb | hb | hb
    · have h2 : ¬(-b < 0) := by simp; linarith
      simp [signFix, neg4, hb, hb.ne, h2]
    · subst hb
      rcases lt_trichotomy c 0 with hc | hc | hc
      · have h2 : ¬(-c < 0) := by simp; linarith
        simp [signFix, neg4, hc, hc.ne, h2]
      · subst hc
        rcases lt_trichotomy d 0 with hd | hd | hd
        · have h2 : ¬(-d < 0) := by simp; linarith
          simp [signFix, neg4, hd, hd.ne, h2]
        · subst hd
          simp [signFix, neg4]
        · have h1 : ¬(d < 0) := by linarith
          have h2 : -d < 0 := by linarith
          simp [signFix, neg4, hd.ne.symm, h1, h2]
      · have h1 : ¬(c < 0) := by linarith
        have h2 : -c < 0 := by linarith
        simp [signFix, neg4, hc.ne.symm, h1, h2]
    · have h1 : ¬(b < 0) := by linarith
      have h2 : -b < 0 := by linarith
      simp [signFix, neg4, hb.ne.symm, h1, h2]
  · have h1 : ¬(a < 0) := by linarith
    have h2 : -a < 0 := by linarith
    simp [signFix, neg4, ha.ne.symm, h1, h2]

lemma normSq_nonneg (v : EqVec) : 0 ≤ normSq v := by
  unfold normSq
  positivity

lemma normSq_pos_of_ne (v : EqVec)
    (h : v.1 ≠ 0 ∨ v.2.1 ≠ 0 ∨ v.2.2.1 ≠ 0 ∨ v.2.2.2 ≠ 0) : 0 < normSq v := by
  unfold normSq
  rcases h with h | h | h | h
  · linarith [pow_two_pos_of_ne_zero h, sq_nonneg v.2.1, sq_nonneg v.2.2.1,
      sq_nonneg v.2.2.2]
  · linarith [pow_two_pos_of_ne_zero h, sq_nonneg v.1, sq_nonneg v.2.2.1,
      sq_nonneg v.2.2.2]
  · linarith [pow_two_pos_of_ne_zero h, sq_nonneg v.1, sq_nonneg v.2.1,
      sq_nonneg v.2.2.2]
  · linarith [pow_two_pos_of_ne_zero h, sq_nonneg v.1, sq_nonneg v.2.1,
      sq_nonneg v.2.2.1]

lemma l2norm_pos_of_ne (v : EqVec)
    (h : v.1 ≠ 0 ∨ v.2.1 ≠ 0 ∨ v.2.2.1 ≠ 0 ∨ v.2.2.2 ≠ 0) : 0 < l2norm v :=
  Real.sqrt_pos.mpr (normSq_pos_of_ne v h)

lemma l2norm_smul4 (k : ℝ) (v : EqVec) : l2norm (smul4 k v) = |k| * l2norm v := by
  unfold l2norm normSq smul4
  rw [show (k * v.1) ^ 2 + (k * v.2.1) ^ 2 + (k * v.2.2.1) ^ 2 + (k * v.2.2.2) ^ 2 =
    k ^ 2 * (v.1 ^ 2 + v.2.1 ^ 2 + v.2.2.1 ^ 2 + v.2.2.2 ^ 2) by ring]
  rw [Real.sqrt_mul (sq_nonneg k), Real.sqrt_sq_eq_abs]

lemma smul4_ne_zero (k : ℝ) (hk : k ≠ 0) (v : EqVec)
    (h : v.1 ≠ 0 ∨ v.2.1 ≠ 0 ∨ v.2.2.1 ≠ 0 ∨ v.2.2.2 ≠ 0) :
    (smul4 k v).1 ≠ 0 ∨ (smul4 k v).2.1 ≠ 0 ∨ (smul4 k v).2.2.1 ≠ 0 ∨
      (smul4 k v).2.2.2 ≠ 0 := by
  rcases h with h | h | h | h
  · exact Or.inl (mul_ne_zero hk h)
  · exact Or.inr (Or.inl (mul_ne_zero hk h))
  · exact Or.inr (Or.inr (Or.inl (mul_ne_zero hk h)))
  · exact Or.inr (Or.inr (Or.inr (mul_ne_zero hk h)))

lemma canonicalize_smul4 (v : EqVec) (c : ℝ) (hc : c ≠ 0) :
    canonicalize (smul4 c v) = canonicalize v := by
  by_cases hz : v.1 ≠ 0 ∨ v.2.1 ≠ 0 ∨ v.2.2.1 ≠ 0 ∨ v.2.2.2 ≠ 0
  · have hz' := smul4_ne_zero c hc v hz
    have hn := l2norm_pos_of_ne v hz
    have hn' : l2norm (smul4 c v) = |c| * l2norm v := l2norm_smul4 c v
    have hnpos' : 0 < l2norm (smul4 c v) := by
      rw [hn']
      exact mul_pos (abs_pos.mpr hc) hn
    unfold canonicalize
    rw [if_neg (not_not_intro hz'), if_neg (not_not_intro hz), if_pos hnpos',
      if_pos hn, hn']
    rcases hc.lt_or_lt with hneg | hpos
    · rw [abs_of_neg hneg]
      have key : ∀ x : ℝ, c * x / -(c * l2norm v) = -(x / l2norm v) := by
        intro x
        rw [div_neg, mul_div_mul_left x (l2norm v) hc]
      have hdiv : div4 (smul4 c v) (-c * l2norm v) = neg4 (div4 v (l2norm v)) := by
        simp [div4, smul4, neg4, Prod.ext_iff, key]
      rw [hdiv, signFix_neg4]
    · rw [abs_of_pos hpos]
      have key : ∀ x : ℝ, c * x / (c * l2norm v) = x / l2norm v := fun x =>
        mul_div_mul_left x (l2norm v) hc
      have hdiv : div4 (smul4 c v) (c * l2norm v) = div4 v (l2norm v) := by
        simp [div4, smul4, Prod.ext_iff, key]
      rw [hdiv]
  · push_neg at hz
    obtain ⟨h1, h2, h3, h4⟩ := hz
    have hv : smul4 c v = v := by
      simp [smul4, Prod.ext_iff, h1, h2, h3, h4]
    rw [hv]

/-- C7: canonicalization is invariant under scaling an equation by any
nonzero scalar; in particular it is invariant under negation. -/
theorem canonicalize_scale_invariant (v : EqVec) (k : ℝ) (hk : k ≠ 0) :
    canonicalize (smul4 k v) = canonicalize v ∧
    canonicalize (neg4 v) = canonicalize v := by
  refine ⟨canonicalize_smul4 v k hk, ?_⟩
  have hneg : neg4 v = smul4 (-1) v := by
    simp [neg4, smul4, Prod.ext_iff]
  rw [hneg]
  exact canonicalize_smul4 v (-1) (by norm_num)

/-- Witness for C7 at the concrete junction equation and scalar `k = −1`. -/
theorem canonicalize_scale_invariant_witness :
    ((-1 : ℝ) ≠ 0) ∧
    (canonicalize (smul4 (-1) ((1 : ℝ), -1, -1, 0)) =
       canonicalize ((1 : ℝ), -1, -1, 0) ∧
     canonicalize (neg4 ((1 : ℝ), -1, -1, 0)) =
       canonicalize ((1 : ℝ), -1, -1, 0)) :=
  ⟨by norm_num, canonicalize_scale_invariant ((1 : ℝ), -1, -1, 0) (-1) (by norm_num)⟩

lemma normSq_signFix (v : EqVec) : normSq (signFix v) = normSq v := by
  unfold signFix
  split_ifs <;> simp [normSq, neg4]

lemma normSq_div4 (v : EqVec) (n : ℝ) : normSq (div4 v n) = normSq v / n ^ 2 := by
  unfold normSq div4
  ring

lemma normSq_canonicalize (v : EqVec)
    (h : v.1 ≠ 0 ∨ v.2.1 ≠ 0 ∨ v.2.2.1 ≠ 0 ∨ v.2.2.2 ≠ 0) :
    normSq (canonicalize v) = 1 := by
  have hn := l2norm_pos_of_ne v h
  unfold canonicalize
  rw [if_neg (not_not_intro h), if_pos hn, normSq_signFix, normSq_div4]
  have hsq : l2norm v ^ 2 = normSq v := Real.sq_sqrt (normSq_nonneg v)
  rw [hsq]
  exact div_self (ne_of_gt (normSq_pos_of_ne v h))

/-- C9: canonicalizing the all-zero vector returns it unchanged, and under
the comparison tolerance an all-zero equation matches an expected equation
iff that expected equation is also all-zero. -/
theorem canonicalize_zero_spec :
    canonicalize ((0 : ℝ), 0, 0, 0) = ((0 : ℝ), 0, 0, 0) ∧
    ∀ e : EqVec,
      (allclose (canonicalize ((0 : ℝ), 0, 0, 0)) (canonicalize e) ↔
        e = ((0 : ℝ), 0, 0, 0)) := by
  have h0 : canonicalize ((0 : ℝ), 0, 0, 0) = ((0 : ℝ), 0, 0, 0) := by
    simp [canonicalize]
  refine ⟨h0, ?_⟩
  rintro ⟨a, b, c, d⟩
  rw [h0]
  constructor
  · intro hall
    by_contra hne
    have hz : (a, b, c, d).1 ≠ 0 ∨ (a, b, c, d).2.1 ≠ 0 ∨
        (a, b, c, d).2.2.1 ≠ 0 ∨ (a, b, c, d).2.2.2 ≠ 0 := by
      by_contra h'
      push_neg at h'
      obtain ⟨e1, e2, e3, e4⟩ := h'
      exact hne (by simp only [Prod.mk.injEq]; exact ⟨e1, e2, e3, e4⟩)
    have h1 := normSq_canonicalize (a, b, c, d) hz
    simp only [allclose, close] at hall
    obtain ⟨hc1, hc2, hc3, hc4⟩ := hall
    have key : ∀ x : ℝ, |0 - x| ≤ ATOL_EQ_COEFF + RTOL_EQ_COEFF * |x| →
        x ^ 2 ≤ (100 / 999) ^ 2 := by
      intro x hx
      simp only [ATOL_EQ_COEFF, RTOL_EQ_COEFF, zero_sub, abs_neg] at hx
      have hb : |x| ≤ 100 / 999 := by
        have := abs_nonneg x
        norm_num at hx
        linarith
      nlinarith [sq_abs x, abs_nonneg x]
    have k1 := key _ hc1
    have k2 := key _ hc2
    have k3 := key _ hc3
    have k4 := key _ hc4
    simp only [normSq] at h1
    have hnum : ((100 : ℝ) / 999) ^ 2 = 10000 / 998001 := by norm_num
    rw [hnum] at k1 k2 k3 k4
    linarith
  · intro he
    rw [he, h0]
    simp [allclose, close, ATOL_EQ_COEFF, RTOL_EQ_COEFF]
    norm_num

lemma compare_equations_length (student_eqs expected_eqs : List EqVec) :
    (compare_equations student_eqs expected_eqs).length = student_eqs.length := by
  simp [compare_equations]

/-- C5: `compare_equations` returns one entry per student equation, true iff
the student equation's canonical form is componentwise close to the
canonical form of some expected equation; the output is invariant under any
permutation of the expected equations. -/
theorem compare_equations_spec (student_eqs expected_eqs : List EqVec) :
    (compare_equations student_eqs expected_eqs).length = student_eqs.length ∧
    (∀ i (hi : i < student_eqs.length),
      ((compare_equations student_eqs expected_eqs).get
          ⟨i, by rw [compare_equations_length]; exact hi⟩ ↔
        ∃ e ∈ expected_eqs,
          allclose (canonicalize (student_eqs.get ⟨i, hi⟩)) (canonicalize e))) ∧
    ∀ expected' : List EqVec, expected_eqs.Perm expected' →
      compare_equations student_eqs expected_eqs =
        compare_equations student_eqs expected' := by
  refine ⟨compare_equations_length student_eqs expected_eqs, ?_, ?_⟩
  · intro i hi
    simp only [compare_equations, List.get_eq_getElem, List.getElem_map]
  · intro expected' hp
    unfold compare_equations
    congr 1
    funext s
    exact propext ⟨fun ⟨e, he, hae⟩ => ⟨e, hp.mem_iff.mp he, hae⟩,
      fun ⟨e, he, hae⟩ => ⟨e, hp.mem_iff.mpr he, hae⟩⟩

/-- Witness for C5: swapping the two expected equations leaves the
comparison output unchanged. -/
theorem compare_equations_spec_witness :
    compare_equations [((1 : ℝ), -1, -1, 0)]
        [((0 : ℝ), 0, 0, 1), ((1 : ℝ), 0, 0, 0)] =
      compare_equations [((1 : ℝ), -1, -1, 0)]
        [((1 : ℝ), 0, 0, 0), ((0 : ℝ), 0, 0, 1)] :=
  (compare_equations_spec [((1 : ℝ), -1, -1, 0)]
      [((0 : ℝ), 0, 0, 1), ((1 : ℝ), 0, 0, 0)]).2.2
    [((1 : ℝ), 0, 0, 0), ((0 : ℝ), 0, 0, 1)]
    (List.Perm.swap ((1 : ℝ), 0, 0, 0) ((0 : ℝ), 0, 0, 1) [])

lemma coeffMatrix_lincomb_rank_le (e1 e2 : EqVec) (a b : ℝ) :
    (coeffMatrix [e1, e2, lincomb a b e1 e2]).rank ≤ 2 := by
  have hfact : coeffMatrix [e1, e2, lincomb a b e1 e2] =
      (Matrix.of ![![1, 0], ![0, 1], ![a, b]] : Matrix (Fin 3) (Fin 2) ℝ) *
        (Matrix.of ![coeffRow e1, coeffRow e2] : Matrix (Fin 2) (Fin 3) ℝ) := by
    ext i j
    fin_cases i <;> fin_cases j <;>
      simp [coeffMatrix, coeffRow, lincomb, Matrix.mul_apply, Fin.sum_univ_two,
        Matrix.vecHead, Matrix.vecTail, Function.comp, Matrix.cons_val_zero,
        Matrix.cons_val_one, Matrix.cons_val_two, Matrix.head_cons,
        Matrix.tail_cons, List.get]
  rw [hfact]
  exact le_trans (Matrix.rank_mul_le_right _ _) (Matrix.rank_le_height _)

/-- C6: `check_linear_independence` holds iff the rank of the `(A, B, C)`
coefficient matrix equals the number of equations, and it fails for three
equations of which one is a linear combination of the other two. -/
theorem check_linear_independence_spec :
    (∀ eqs : List EqVec,
      check_linear_independence eqs ↔ (coeffMatrix eqs).rank = eqs.length) ∧
    ∀ (e1 e2 : EqVec) (a b : ℝ),
      ¬check_linear_independence [e1, e2, lincomb a b e1 e2] := by
  refine ⟨fun eqs => Iff.rfl, ?_⟩
  intro e1 e2 a b hind
  have hle := coeffMatrix_lincomb_rank_le e1 e2 a b
  unfold check_linear_independence at hind
  simp only [List.length_cons, List.length_nil] at hind
  omega

/-- Witness for C6: duplicating the junction row (third equation equal to
`1·eq1 + 0·eq2`) is reported as dependent. -/
theorem check_linear_independence_spec_witness :
    ¬check_linear_independence
      [((1 : ℝ), -1, -1, 0), ((-100 : ℝ), 0, -100, 10),
       lincomb 1 0 ((1 : ℝ), -1, -1, 0) ((-100 : ℝ), 0, -100, 10)] :=
  check_linear_independence_spec.2 ((1 : ℝ), -1, -1, 0) ((-100 : ℝ), 0, -100, 10) 1 0

end KirchhoffChecker
